import Mathlib

/-!
Verification of the `grid` actor-grid library.

The development embeds, shallowly:
  * the v1 pretty-printers (`FuncInst.PrettyPrint`, `PeerSched.PrettyPrint`),
  * the `grid2` lifecycle (`New`, `Start`, `Stop`, `StartActor`, `fork`),
  * the grid.v3 coordination core (Registry, Mailbox, Client retry,
    reply sink, codec registry), modelled from the specification where the
    core library sources are not part of this tree.

Go maps become association lists; Go map iteration followed by
`sort.Strings` becomes sorting with a byte-wise (equivalently,
code-point-wise) lexicographic order on strings.

The file is organised as definitions first, then theorems.
-/

namespace GridProof

/-! ## Definitions -/

/-! ### Byte-wise lexicographic order on strings

Go's `sort.Strings` sorts ascending by the built-in `<=` on `string`,
which compares UTF-8 bytes lexicographically.  UTF-8 byte order agrees
with code-point order, so we compare the character lists. -/

/-- Lexicographic comparison of char lists, mirroring Go string `<=`. -/
def leChars : List Char → List Char → Bool
  | [], _ => true
  | _ :: _, [] => false
  | a :: as, b :: bs =>
    if a < b then true
    else if b < a then false
    else leChars as bs

/-- Go string `<=` (byte-wise lexicographic). -/
def strLe (a b : String) : Bool :=
  leChars a.data b.data

/-- The propositional form of `strLe`, used as a sorting relation. -/
def strLeP (a b : String) : Prop := strLe a b = true

/-- Insert an element into a list sorted by `le`. -/
def insertSortedBy {α : Type _} (le : α → α → Bool) (a : α) : List α → List α
  | [] => [a]
  | b :: l => if le a b then a :: b :: l else b :: insertSortedBy le a l

/-- Insertion sort by `le`; the embedding of Go's `sort.Slice`-style
ascending sort (`sort.Strings` for strings). -/
def sortBy {α : Type _} (le : α → α → Bool) : List α → List α
  | [] => []
  | a :: l => insertSortedBy le a (sortBy le l)

/-- The embedding of `sort.Strings`: sort ascending in byte order. -/
def sortStrings (l : List String) : List String :=
  sortBy strLe l

/-- Sorting an association list by key, ascending in byte order. -/
def sortPairs {β : Type _} (l : List (String × β)) : List (String × β) :=
  sortBy (fun p q => strLe p.1 q.1) l

/-! ### Association lists as Go maps

A Go `map[string]T` is embedded as a `List (String × T)` whose keys are
distinct; `lookupKey` is map indexing (`none` for an absent key). -/

/-- Go map indexing: the value stored under `k`, if any. -/
def lookupKey {β : Type _} (k : String) : List (String × β) → Option β
  | [] => none
  | (k', v) :: rest => if k = k' then some v else lookupKey k rest

/-- Concatenation of the chunks written sequentially into a byte buffer. -/
def strConcat : List String → String
  | [] => ""
  | s :: rest => s ++ strConcat rest

/-! ### The v1 pretty-printers

Embedding of `FuncInst.PrettyPrint` and `PeerSched.PrettyPrint` from the
v1 sources.  `fmt.Sprintf("%v #%v: ", fname, i)` renders the string raw
and the integer in decimal; the `%v` rendering of a topic-slice value is
kept abstract (the `topicslice` type is defined outside these sources). -/

/-- The `%v` rendering of a v1 `topicslice` value, kept abstract. -/
structure TopicSlice where
  str : String
deriving DecidableEq

/-- The v1 `FuncInst`: function name, instance number, and the
`topicslices` map keyed by topic name. -/
structure FuncInst where
  fname : String
  i : Int
  topicslices : List (String × TopicSlice)
deriving DecidableEq

/-- `FuncInst.PrettyPrint`: collect the topic names, sort them, write
`"<fname> #<i>: "`, then each topic's slice value with `", "` between
consecutive topics and no trailing separator. -/
def FuncInst.PrettyPrint (fi : FuncInst) : String :=
  fi.fname ++ " #" ++ toString fi.i ++ ": " ++
    String.intercalate ", "
      ((sortStrings (fi.topicslices.map Prod.fst)).map
        (fun topic => ((lookupKey topic fi.topicslices).getD ⟨""⟩).str))

/-- The v1 `PeerSched`: a map from peer name to its function instances. -/
structure PeerSched where
  entries : List (String × List FuncInst)

/-- `PeerSched.PrettyPrint`: the names slice is pre-allocated with
`make([]string, len(ps))` and then appended to, so it holds `len(ps)`
empty strings followed by the keys; it is sorted, and each name is looked
up in the map (an absent key yields the empty instance list), emitting
one `"<name>: <inst>\n"` chunk per instance. -/
def PeerSched.PrettyPrint (ps : PeerSched) : String :=
  strConcat
    ((sortStrings (List.replicate ps.entries.length "" ++ ps.entries.map Prod.fst)).map
      (fun name =>
        strConcat (((lookupKey name ps.entries).getD []).map
          (fun finst => name ++ ": " ++ finst.PrettyPrint ++ "\n"))))

/-- The output format claimed for `PeerSched.PrettyPrint`: one chunk per
function instance, grouped by peer in ascending byte order of peer name. -/
def PeerSched.prettyFormat (ps : PeerSched) : String :=
  strConcat
    ((sortPairs ps.entries).map (fun p =>
      strConcat (p.2.map (fun finst => p.1 ++ ": " ++ finst.PrettyPrint ++ "\n"))))

/-! ### The grid.v3 coordination core, modelled from the specification

The grid.v3 library sources (Registry, Server, Client, Mailbox, codec)
are not part of this tree — only their test and example callers are —
so the definitions below are modelled from the specification. -/

/-- Modelled from the spec: registration kinds (§3). -/
inductive Kind
  | peer
  | actor
  | mailbox
deriving DecidableEq

/-- Modelled from the spec: the error taxonomy (§7). -/
inductive GridErr
  | alreadyRegistered
  | notFound
  | leaseLost
  | unavailable
  | deadlineExceeded
  | mailboxFull
  | unknownType
  | codecConflict
  | alreadyResponded
deriving DecidableEq

/-- Modelled from the spec: a live Registry entry
`(kind, name) -> owner peer` within one namespace (§3, §4.1). -/
structure Reg where
  kind : Kind
  name : String
  owner : String
deriving DecidableEq

/-- Modelled from the spec: the coordination store for one namespace —
the peers holding a live lease, and the live registrations (§4.1). -/
structure Registry where
  leases : List String
  regs : List Reg
deriving DecidableEq

/-- The registry with no leases and no registrations. -/
def emptyRegistry : Registry := { leases := [], regs := [] }

/-- A live registration with the given `(kind, name)` exists. -/
def live (r : Registry) (k : Kind) (n : String) : Bool :=
  r.regs.any (fun e => decide (e.kind = k ∧ e.name = n))

/-- Modelled from the spec: `Register(kind, name)` — fails with
`already-registered` when a live registration with the same
`(kind, name)` exists, with `lease-lost` when the peer holds no valid
lease; otherwise atomically creates the entry under the peer's lease. -/
def Register (r : Registry) (k : Kind) (n : String) (owner : String) :
    Except GridErr Registry :=
  if live r k n then .error .alreadyRegistered
  else if owner ∈ r.leases then
    .ok { r with regs := ⟨k, n, owner⟩ :: r.regs }
  else .error .leaseLost

/-- Modelled from the spec: `Deregister` — best-effort, idempotent
removal. -/
def Deregister (r : Registry) (k : Kind) (n : String) : Registry :=
  { r with regs := r.regs.filter (fun e => !decide (e.kind = k ∧ e.name = n)) }

/-- Modelled from the spec: `FindAll(kind)` — all live registrations of
a kind in the namespace. -/
def FindAll (r : Registry) (k : Kind) : List Reg :=
  r.regs.filter (fun e => decide (e.kind = k))

/-- Modelled from the spec: a peer acquires a lease. -/
def grantLease (r : Registry) (p : String) : Registry :=
  { r with leases := p :: r.leases }

/-- Modelled from the spec: lease expiry atomically removes the lease
and every registration bound to it (§3, §4.1). -/
def expireLease (r : Registry) (p : String) : Registry :=
  { leases := r.leases.erase p,
    regs := r.regs.filter (fun e => !decide (e.owner = p)) }

/-- The `(kind, name)` key of a registration. -/
def regKey (e : Reg) : Kind × String := (e.kind, e.name)

/-- Registry well-formedness: no two live registrations share
`(kind, name)` (invariant I2 of §4.1). -/
def RegistryWF (r : Registry) : Prop := (r.regs.map regKey).Nodup

/-- Registry states reachable from the empty registry through the
coordinator operations. -/
inductive RegReachable : Registry → Prop
  | empty : RegReachable emptyRegistry
  | grant {r : Registry} (p : String) :
      RegReachable r → RegReachable (grantLease r p)
  | expire {r : Registry} (p : String) :
      RegReachable r → RegReachable (expireLease r p)
  | register {r r' : Registry} {k : Kind} {n : String} {p : String} :
      RegReachable r → Register r k n p = .ok r' → RegReachable r'
  | deregister {r : Registry} (k : Kind) (n : String) :
      RegReachable r → RegReachable (Deregister r k n)

/-- Modelled from the spec: N peers racing to `Register` the same
`(kind, name)`; the coordinator's linearizable CAS serialises the
attempts.  Returns the final registry and the number of successes. -/
def runRace (k : Kind) (n : String) : Registry → List String → Registry × Nat
  | r, [] => (r, 0)
  | r, p :: ps =>
    match Register r k n p with
    | .ok r' => ((runRace k n r' ps).1, (runRace k n r' ps).2 + 1)
    | .error _ => runRace k n r ps

/-- Leader lifecycle counters of the example grid (`leadersStarted`,
`leadersEnded` in the grid.v3 test). -/
structure ServeCounts where
  leadersStarted : Nat
  leadersEnded : Nat
deriving DecidableEq

/-- Modelled from the spec: a single Server running `Serve` then `Stop`
(the Server sources are not in this tree): `Serve` acquires a lease,
registers the peer, races to register `(actor, "leader")` and on success
makes and starts the leader actor; `Stop` cancels the actor contexts —
each started actor's `Act` returns — and deregisters everything. -/
def serveThenStop (p : String) : ServeCounts :=
  match Register (grantLease emptyRegistry p) .peer p p with
  | .error _ => { leadersStarted := 0, leadersEnded := 0 }
  | .ok r1 =>
    match Register r1 .actor "leader" p with
    | .error _ => { leadersStarted := 0, leadersEnded := 0 }
    | .ok _ => { leadersStarted := 1, leadersEnded := 1 }

/-- Modelled from the spec: one queued envelope; the payload is opaque
here. -/
structure Envelope where
  payload : String
deriving DecidableEq

/-- Modelled from the spec: a Mailbox's bounded receive queue (§4.4). -/
structure Mailbox where
  capacity : Nat
  queue : List Envelope
deriving DecidableEq

/-- Modelled from the spec: `NewMailbox(server, name, capacity)`
registers `(mailbox, name)` and yields an empty bounded queue; it fails
with `already-registered` when the name is live anywhere in the
namespace. -/
def NewMailbox (r : Registry) (owner : String) (n : String) (cap : Nat) :
    Except GridErr (Registry × Mailbox) :=
  match Register r .mailbox n owner with
  | .ok r' => .ok (r', { capacity := cap, queue := [] })
  | .error e => .error e

/-- Modelled from the spec: server-side dispatch of one inbound call
into the mailbox queue — when the queue is full the call is dropped with
`mailbox-full` (it never blocks); otherwise the envelope is appended. -/
def deliver (m : Mailbox) (e : Envelope) : Mailbox × Option GridErr :=
  if m.queue.length < m.capacity then
    ({ m with queue := m.queue ++ [e] }, none)
  else (m, some .mailboxFull)

/-- Deliver a batch of envelopes without draining; besides the final
mailbox, count the delivered and the failed calls. -/
def deliverAll : Mailbox → List Envelope → Mailbox × Nat × Nat
  | m, [] => (m, 0, 0)
  | m, e :: es =>
    match deliver m e with
    | (m', none) =>
      ((deliverAll m' es).1, (deliverAll m' es).2.1 + 1, (deliverAll m' es).2.2)
    | (m', some _) =>
      ((deliverAll m' es).1, (deliverAll m' es).2.1, (deliverAll m' es).2.2 + 1)

/-- Modelled from the spec: the outcome of one transport call. -/
inductive CallOutcome
  | ok (resp : String)
  | err (e : GridErr)
deriving DecidableEq

/-- Modelled from the spec: the errors that trigger the Client's single
retry — `not-found` from the peer and `unavailable` from the transport
(§4.6). -/
def retryable : GridErr → Bool
  | .notFound => true
  | .unavailable => true
  | _ => false

/-- Removal of a key's entry from an association list. -/
def removeKey {β : Type _} (k : String) (l : List (String × β)) :
    List (String × β) :=
  l.filter (fun p => !decide (p.1 = k))

/-- Modelled from the spec: Client-side resolution — use the cached
address when present, otherwise a Registry lookup, caching the result
(§4.6 steps 1–2). -/
def resolve (cache reg : List (String × String)) (name : String) :
    Option (String × List (String × String)) :=
  match lookupKey name cache with
  | some a => some (a, cache)
  | none =>
    match lookupKey name reg with
    | some a => some (a, (name, a) :: cache)
    | none => none

/-- Modelled from the spec: `Client.Request` (§4.6) — resolve the
receiver, call the transport; on `not-found` or `unavailable` invalidate
the cache entry, look the receiver up fresh in the Registry, call once
more and return that second outcome to the caller.  The transport is an
oracle indexed by attempt number and address; the result carries the
outcome, the number of transport calls made, and the new cache. -/
def clientRequest (cache reg : List (String × String)) (name : String)
    (transport : Nat → String → CallOutcome) :
    CallOutcome × Nat × List (String × String) :=
  match resolve cache reg name with
  | none => (.err .notFound, 0, cache)
  | some (addr, c1) =>
    match transport 0 addr with
    | .ok resp => (.ok resp, 1, c1)
    | .err e =>
      if retryable e then
        match lookupKey name reg with
        | none => (.err .notFound, 1, removeKey name c1)
        | some addr2 => (transport 1 addr2, 2, (name, addr2) :: removeKey name c1)
      else (.err e, 1, c1)

/-- Modelled from the spec: the one-shot reply capability scoped to an
RPC (§3, Envelope). -/
structure ReplySink where
  rpcLive : Bool
  responded : Bool
deriving DecidableEq

/-- Modelled from the spec: `Respond` — succeeds only while the RPC is
live and no response has been written yet; otherwise it fails with
`already-responded`. -/
def respond (s : ReplySink) : Except GridErr ReplySink :=
  if s.rpcLive && !s.responded then .ok { s with responded := true }
  else .error .alreadyResponded

/-- Modelled from the spec: completion of the RPC ends the sink's
scope. -/
def completeRPC (s : ReplySink) : ReplySink := { s with rpcLive := false }

/-- The reply sink of a newly received, still-live RPC. -/
def freshSink : ReplySink := { rpcLive := true, responded := false }

/-- Modelled from the spec: a decodable payload value — its type tag and
its decoded body (§4.3); the wire body is opaque bytes. -/
structure CodecVal where
  typeTag : String
  body : List Nat
deriving DecidableEq

/-- Modelled from the spec: `Register(v)` on the codec registry records
a zero-value factory keyed by the canonical name of `v`'s type. -/
def codecRegister (reg : List (String × CodecVal)) (tag : String) :
    List (String × CodecVal) :=
  (tag, { typeTag := tag, body := [] }) :: reg

/-- Modelled from the spec: receiving a payload — an unregistered tag
fails with `unknown-type`; a registered tag constructs the zero value of
the registered type and decodes the body into it (§4.3). -/
def recvDecode (reg : List (String × CodecVal)) (tag : String)
    (body : List Nat) : Except GridErr CodecVal :=
  match lookupKey tag reg with
  | none => .error .unknownType
  | some z => .ok { z with body := body }

/-! ### The grid2 lifecycle (`grid2/grid.go`)

Only the lifecycle-relevant fields are modelled: `started` and
`stopped`.  `Start` assigns coordinator, consumer and connection fields
but never writes `started` or `stopped`; `fork` copies both under the
shared mutex; `Stop` checks `stopped` and, when it is false, calls
`metaconsumer.Shutdown()` and sets it; `StartActor` submits a task and
touches neither field. -/

/-- The lifecycle state of a `grid2` grid value. -/
structure Grid2State where
  started : Bool
  stopped : Bool
deriving DecidableEq

/-- `New`: the literal sets `stopped: true` and leaves `started` at its
zero value `false`. -/
def grid2New : Grid2State := { started := false, stopped := true }

/-- `Start`: returns the exit channel early when already started;
otherwise it builds the coordinator, consumer and connections, none of
which writes `started` or `stopped`. -/
def grid2Start (g : Grid2State) : Grid2State :=
  if g.started then g else g

/-- `Stop`: under the mutex — when not yet stopped, call
`metaconsumer.Shutdown()` and set `stopped`.  The Bool records whether
the `Shutdown` call was performed. -/
def grid2Stop (g : Grid2State) : Grid2State × Bool :=
  if !g.stopped then ({ g with stopped := true }, true) else (g, false)

/-- Calling `Stop` `n` times in a row. -/
def grid2StopN : Nat → Grid2State → Grid2State
  | 0, g => g
  | n + 1, g => grid2StopN n (grid2Stop g).1

/-- `StartActor`: submits the actor task to the coordinator; neither
`started` nor `stopped` changes. -/
def grid2StartActor (g : Grid2State) : Grid2State := g

/-- `fork`: a copy sharing the mutex, with `started` and `stopped`
copied. -/
def grid2Fork (g : Grid2State) : Grid2State :=
  { started := g.started, stopped := g.stopped }

/-- `grid2` states reachable from `New` through the exported operations
and `fork`. -/
inductive Grid2Reachable : Grid2State → Prop
  | new : Grid2Reachable grid2New
  | start {g : Grid2State} : Grid2Reachable g → Grid2Reachable (grid2Start g)
  | stop {g : Grid2State} : Grid2Reachable g → Grid2Reachable (grid2Stop g).1
  | startActor {g : Grid2State} :
      Grid2Reachable g → Grid2Reachable (grid2StartActor g)
  | fork {g : Grid2State} : Grid2Reachable g → Grid2Reachable (grid2Fork g)

end GridProof

namespace GridProof

/-! ## Theorems -/

theorem leChars_cons_lt {a b : Char} (h : a < b) (as bs : List Char) :
    leChars (a :: as) (b :: bs) = true := by
  simp [leChars, h]

theorem leChars_cons_gt {a b : Char} (h : b < a) (as bs : List Char) :
    leChars (a :: as) (b :: bs) = false := by
  simp [leChars, h, lt_asymm h]

theorem leChars_cons_self (a : Char) (as bs : List Char) :
    leChars (a :: as) (a :: bs) = leChars as bs := by
  simp [leChars]

theorem leChars_total : ∀ x y : List Char, (leChars x y || leChars y x) = true
  | [], _ => by simp [leChars]
  | _ :: _, [] => by simp [leChars]
  | a :: as, b :: bs => by
    rcases lt_trichotomy a b with hab | hab | hab
    · simp [leChars_cons_lt hab]
    · subst hab
      rw [leChars_cons_self, leChars_cons_self]
      exact leChars_total as bs
    · simp [leChars_cons_lt hab]

theorem leChars_trans :
    ∀ x y z : List Char, leChars x y = true → leChars y z = true → leChars x z = true
  | [], _, _ => by simp [leChars]
  | _ :: _, [], _ => by simp [leChars]
  | _ :: _, _ :: _, [] => by simp [leChars]
  | a :: as, b :: bs, c :: cs => by
    intro hxy hyz
    rcases lt_trichotomy a b with hab | hab | hab
    · rcases lt_trichotomy b c with hbc | hbc | hbc
      · exact leChars_cons_lt (lt_trans hab hbc) as cs
      · subst hbc
        exact leChars_cons_lt hab as cs
      · rw [leChars_cons_gt hbc] at hyz
        exact absurd hyz (by simp)
    · subst hab
      rcases lt_trichotomy a c with hac | hac | hac
      · exact leChars_cons_lt hac as cs
      · subst hac
        rw [leChars_cons_self] at hxy hyz ⊢
        exact leChars_trans as bs cs hxy hyz
      · rw [leChars_cons_gt hac] at hyz
        exact absurd hyz (by simp)
    · rw [leChars_cons_gt hab] at hxy
      exact absurd hxy (by simp)

theorem leChars_antisymm :
    ∀ x y : List Char, leChars x y = true → leChars y x = true → x = y
  | [], [] => by intro _ _; rfl
  | [], _ :: _ => by simp [leChars]
  | _ :: _, [] => by simp [leChars]
  | a :: as, b :: bs => by
    intro hxy hyx
    rcases lt_trichotomy a b with hab | hab | hab
    · rw [leChars_cons_gt hab] at hyx
      exact absurd hyx (by simp)
    · subst hab
      rw [leChars_cons_self] at hxy hyx
      rw [leChars_antisymm as bs hxy hyx]
    · rw [leChars_cons_gt hab] at hxy
      exact absurd hxy (by simp)

theorem strLe_total (a b : String) : (strLe a b || strLe b a) = true :=
  leChars_total a.data b.data

theorem strLe_trans {a b c : String} (h1 : strLe a b = true) (h2 : strLe b c = true) :
    strLe a c = true :=
  leChars_trans a.data b.data c.data h1 h2

theorem strLe_antisymm {a b : String} (h1 : strLe a b = true) (h2 : strLe b a = true) :
    a = b := by
  cases a with
  | mk as =>
    cases b with
    | mk bs =>
      have h := leChars_antisymm as bs h1 h2
      rw [h]

/-! ### Sorting lemmas -/

theorem insertSortedBy_perm {α : Type _} (le : α → α → Bool) (a : α) :
    ∀ l : List α, (insertSortedBy le a l).Perm (a :: l)
  | [] => List.Perm.refl _
  | b :: l => by
    rw [insertSortedBy]
    by_cases h : le a b = true
    · rw [if_pos h]
    · rw [if_neg h]
      exact (List.Perm.cons b (insertSortedBy_perm le a l)).trans (List.Perm.swap a b l)

theorem sortBy_perm {α : Type _} (le : α → α → Bool) :
    ∀ l : List α, (sortBy le l).Perm l
  | [] => List.Perm.refl _
  | a :: l =>
    (insertSortedBy_perm le a (sortBy le l)).trans (List.Perm.cons a (sortBy_perm le l))

theorem insertSortedBy_pairwise {α : Type _} (le : α → α → Bool)
    (total : ∀ a b, (le a b || le b a) = true)
    (trans : ∀ a b c, le a b = true → le b c = true → le a c = true)
    (a : α) :
    ∀ l : List α, l.Pairwise (fun x y => le x y = true) →
      (insertSortedBy le a l).Pairwise (fun x y => le x y = true)
  | [], _ => List.Pairwise.cons (by simp) List.Pairwise.nil
  | b :: l, hp => by
    rw [insertSortedBy]
    rcases List.pairwise_cons.mp hp with ⟨hb, hl⟩
    by_cases h : le a b = true
    · rw [if_pos h]
      refine List.Pairwise.cons ?_ hp
      intro x hx
      rcases List.mem_cons.mp hx with hx | hx
      · rw [hx]; exact h
      · exact trans a b x h (hb x hx)
    · rw [if_neg h]
      have hba : le b a = true := by
        have ht := total a b
        rcases Bool.or_eq_true_iff.mp ht with h' | h'
        · exact absurd h' h
        · exact h'
      refine List.Pairwise.cons ?_ (insertSortedBy_pairwise le total trans a l hl)
      intro x hx
      have hx' := (insertSortedBy_perm le a l).mem_iff.mp hx
      rcases List.mem_cons.mp hx' with hx' | hx'
      · rw [hx']; exact hba
      · exact hb x hx'

theorem sortBy_pairwise {α : Type _} (le : α → α → Bool)
    (total : ∀ a b, (le a b || le b a) = true)
    (trans : ∀ a b c, le a b = true → le b c = true → le a c = true) :
    ∀ l : List α, (sortBy le l).Pairwise (fun x y => le x y = true)
  | [] => List.Pairwise.nil
  | a :: l =>
    insertSortedBy_pairwise le total trans a (sortBy le l)
      (sortBy_pairwise le total trans l)

theorem sortStrings_perm (l : List String) : (sortStrings l).Perm l :=
  sortBy_perm strLe l

theorem sortStrings_sorted (l : List String) : (sortStrings l).Pairwise strLeP :=
  sortBy_pairwise strLe strLe_total (fun _ _ _ => strLe_trans) l

theorem sortPairs_perm {β : Type _} (l : List (String × β)) : (sortPairs l).Perm l :=
  sortBy_perm _ l

theorem sortPairs_sorted {β : Type _} (l : List (String × β)) :
    (sortPairs l).Pairwise (fun p q => strLe p.1 q.1 = true) :=
  sortBy_pairwise (fun p q => strLe p.1 q.1) (fun p q => strLe_total p.1 q.1)
    (fun _ _ _ => strLe_trans) l

/-- Sorted-by-`strLe` lists that are permutations of each other are equal. -/
theorem sortedStr_eq_of_perm {l l' : List String} (hp : l.Perm l')
    (h1 : l.Pairwise strLeP) (h2 : l'.Pairwise strLeP) : l = l' := by
  haveI : IsAntisymm String strLeP := ⟨fun _ _ => strLe_antisymm⟩
  exact List.eq_of_perm_of_sorted hp h1 h2

/-! ### Association-list lemmas -/

theorem lookupKey_eq_none {β : Type _} (k : String) :
    ∀ l : List (String × β), k ∉ l.map Prod.fst → lookupKey k l = none
  | [] => fun _ => rfl
  | (k', v) :: rest => by
    intro h
    simp only [List.map_cons, List.mem_cons] at h
    push_neg at h
    simp only [lookupKey, if_neg h.1]
    exact lookupKey_eq_none k rest h.2

theorem lookupKey_mem {β : Type _} (k : String) (v : β) :
    ∀ l : List (String × β), lookupKey k l = some v → (k, v) ∈ l
  | [] => by simp [lookupKey]
  | (k', v') :: rest => by
    intro h
    by_cases hk : k = k'
    · subst hk
      simp only [lookupKey, if_true, eq_self_iff_true, Option.some.injEq] at h
      subst h
      exact List.mem_cons_self _ _
    · simp only [lookupKey, if_neg hk] at h
      exact List.mem_cons_of_mem _ (lookupKey_mem k v rest h)

theorem mem_lookupKey {β : Type _} {k : String} {v : β} :
    ∀ {l : List (String × β)}, (l.map Prod.fst).Nodup → (k, v) ∈ l →
      lookupKey k l = some v
  | [], _, hm => absurd hm (List.not_mem_nil _)
  | (k', v') :: rest, hnd, hm => by
    rw [List.map_cons, List.nodup_cons] at hnd
    rcases List.mem_cons.mp hm with h | h
    · rw [Prod.mk.injEq] at h
      rw [lookupKey, if_pos h.1, h.2]
    · have hk : k ≠ k' := by
        intro he
        subst he
        exact hnd.1 (List.mem_map.mpr ⟨(k, v), h, rfl⟩)
      rw [lookupKey, if_neg hk]
      exact mem_lookupKey hnd.2 h

theorem lookupKey_perm {β : Type _} {l l' : List (String × β)}
    (hp : l.Perm l') (hnd : (l.map Prod.fst).Nodup) (k : String) :
    lookupKey k l = lookupKey k l' := by
  have hnd' : (l'.map Prod.fst).Nodup := (hp.map Prod.fst).nodup_iff.mp hnd
  cases h : lookupKey k l with
  | none =>
    have hk : k ∉ l.map Prod.fst := by
      intro hmem
      rcases List.mem_map.mp hmem with ⟨⟨k', v⟩, hmem', he⟩
      dsimp at he
      subst he
      rw [mem_lookupKey hnd hmem'] at h
      exact Option.some_ne_none _ h
    have hk' : k ∉ l'.map Prod.fst := fun hc => hk ((hp.map Prod.fst).mem_iff.mpr hc)
    rw [lookupKey_eq_none k l' hk']
  | some v =>
    exact (mem_lookupKey hnd' (hp.mem_iff.mp (lookupKey_mem k v l h))).symm

/-- Pairwise relation of `(List.replicate n a)` for a reflexive point. -/
theorem pairwise_replicate {α : Type _} {r : α → α → Prop} {a : α} (h : r a a) :
    ∀ n, (List.replicate n a).Pairwise r
  | 0 => List.Pairwise.nil
  | n + 1 => by
    rw [List.replicate_succ]
    refine List.Pairwise.cons ?_ (pairwise_replicate h n)
    intro b hb
    rw [List.eq_of_mem_replicate hb]
    exact h

/-- Iterating a Go map and sorting its keys, then indexing back into the
map, visits exactly the key-sorted entries. -/
theorem sorted_keys_map_lookup {β γ : Type _} (l : List (String × β))
    (hnd : (l.map Prod.fst).Nodup) (f : String → Option β → γ) :
    (sortStrings (l.map Prod.fst)).map (fun k => f k (lookupKey k l))
      = (sortPairs l).map (fun p => f p.1 (some p.2)) := by
  have hkeys : sortStrings (l.map Prod.fst) = (sortPairs l).map Prod.fst := by
    apply sortedStr_eq_of_perm
    · exact (sortStrings_perm _).trans ((sortPairs_perm l).map Prod.fst).symm
    · exact sortStrings_sorted _
    · have hs := sortPairs_sorted l
      rw [List.pairwise_map]
      exact hs.imp (fun h => h)
  rw [hkeys, List.map_map]
  apply List.map_congr_left
  intro p hp
  have hpl : p ∈ l := (sortPairs_perm l).mem_iff.mp hp
  show f p.1 (lookupKey p.1 l) = f p.1 (some p.2)
  rw [mem_lookupKey hnd hpl]

theorem strConcat_append (l₁ l₂ : List String) :
    strConcat (l₁ ++ l₂) = strConcat l₁ ++ strConcat l₂ := by
  induction l₁ with
  | nil => simp [strConcat]
  | cons s rest ih => simp [strConcat, ih, String.append_assoc]

theorem strConcat_replicate_empty : ∀ n, strConcat (List.replicate n "") = ""
  | 0 => rfl
  | n + 1 => by
    rw [List.replicate_succ, strConcat, strConcat_replicate_empty n]
    rfl

/-! ### The pretty-printer claims -/

/-- C8: for every `FuncInst` (a Go map has distinct topic keys),
`PrettyPrint` returns a string that begins with `"<fname> #<i>: "` and
then lists the string form of each topic's slice value in ascending
byte-lexicographic order of topic name, with `", "` between consecutive
topics and no trailing separator; moreover the output is deterministic —
it does not depend on the iteration order of the `topicslices` map. -/
theorem funcInst_prettyPrint_spec (fi : FuncInst)
    (hnd : (fi.topicslices.map Prod.fst).Nodup) :
    fi.PrettyPrint
        = fi.fname ++ " #" ++ toString fi.i ++ ": " ++
            String.intercalate ", "
              ((sortPairs fi.topicslices).map (fun p => p.2.str))
      ∧ ∀ gi : FuncInst, gi.fname = fi.fname → gi.i = fi.i →
          gi.topicslices.Perm fi.topicslices → gi.PrettyPrint = fi.PrettyPrint := by
  constructor
  · rw [FuncInst.PrettyPrint]
    congr 1
    congr 1
    exact sorted_keys_map_lookup fi.topicslices hnd
      (fun _ o => (o.getD ⟨""⟩).str)
  · intro gi hf hi hperm
    have hndg : (gi.topicslices.map Prod.fst).Nodup :=
      (hperm.map Prod.fst).nodup_iff.mpr hnd
    have hkeys : sortStrings (gi.topicslices.map Prod.fst)
        = sortStrings (fi.topicslices.map Prod.fst) :=
      sortedStr_eq_of_perm
        ((sortStrings_perm _).trans
          ((hperm.map Prod.fst).trans (sortStrings_perm _).symm))
        (sortStrings_sorted _) (sortStrings_sorted _)
    rw [FuncInst.PrettyPrint, FuncInst.PrettyPrint, hf, hi, hkeys]
    congr 1
    congr 1
    apply List.map_congr_left
    intro t _
    rw [lookupKey_perm hperm hndg t]

/-- Witness for C8 at a concrete two-topic instance. -/
theorem funcInst_prettyPrint_spec_witness :
    (FuncInst.mk "f" 1 [("b", ⟨"B"⟩), ("a", ⟨"A"⟩)]).PrettyPrint = "f #1: A, B" := by
  have h := (funcInst_prettyPrint_spec
    (FuncInst.mk "f" 1 [("b", ⟨"B"⟩), ("a", ⟨"A"⟩)]) (by decide)).1
  exact h.trans (by decide)

/-- C9: for every `PeerSched` none of whose peer names is empty (keys of
a Go map are distinct), `PrettyPrint` emits exactly one
`"<peer>: <instance>\n"` chunk per function instance, grouped by peer in
ascending byte order of peer name; the `len(ps)` empty strings left in
the names slice by the `make([]string, len(ps))` pre-allocation
contribute nothing, because looking up an absent key yields the empty
instance list. -/
theorem peerSched_prettyPrint_spec (ps : PeerSched)
    (hnd : (ps.entries.map Prod.fst).Nodup)
    (hne : "" ∉ ps.entries.map Prod.fst) :
    ps.PrettyPrint = ps.prettyFormat := by
  rw [PeerSched.PrettyPrint, PeerSched.prettyFormat]
  have hsort : sortStrings
        (List.replicate ps.entries.length "" ++ ps.entries.map Prod.fst)
      = List.replicate ps.entries.length ""
          ++ sortStrings (ps.entries.map Prod.fst) := by
    apply sortedStr_eq_of_perm
    · exact (sortStrings_perm _).trans
        ((List.Perm.refl _).append (sortStrings_perm _)).symm
    · exact sortStrings_sorted _
    · rw [List.pairwise_append]
      refine ⟨pairwise_replicate (show strLeP "" "" from rfl) _,
        sortStrings_sorted _, ?_⟩
      intro a ha b _
      rw [List.eq_of_mem_replicate ha]
      rfl
  rw [hsort, List.map_append, strConcat_append, List.map_replicate]
  have hempty : strConcat (((lookupKey "" ps.entries).getD []).map
      (fun finst => "" ++ ": " ++ finst.PrettyPrint ++ "\n")) = "" := by
    rw [lookupKey_eq_none _ _ hne]
    rfl
  rw [hempty, strConcat_replicate_empty]
  show "" ++ _ = _
  rw [String.empty_append]
  congr 1
  exact sorted_keys_map_lookup ps.entries hnd
    (fun name o => strConcat ((o.getD []).map
      (fun finst => name ++ ": " ++ finst.PrettyPrint ++ "\n")))

/-- Witness for C9 at a concrete two-peer schedule. -/
theorem peerSched_prettyPrint_spec_witness :
    (PeerSched.mk [("b", [FuncInst.mk "f" 1 [("t", ⟨"S"⟩)]]),
                   ("a", [FuncInst.mk "g" 2 []])]).PrettyPrint
      = (PeerSched.mk [("b", [FuncInst.mk "f" 1 [("t", ⟨"S"⟩)]]),
                       ("a", [FuncInst.mk "g" 2 []])]).prettyFormat :=
  peerSched_prettyPrint_spec _ (by decide) (by decide)

/-! ### The grid2 lifecycle claims -/

/-- After one `Stop`, the grid observes `stopped`. -/
theorem grid2Stop_stopped (g : Grid2State) : (grid2Stop g).1.stopped = true := by
  cases hg : g.stopped <;> simp [grid2Stop, hg]

/-- `Stop` on an already-stopped grid does nothing. -/
theorem grid2Stop_of_stopped {g : Grid2State} (h : g.stopped = true) :
    grid2Stop g = (g, false) := by
  simp [grid2Stop, h]

/-- Iterating `Stop` from an already-stopped grid does nothing. -/
theorem grid2StopN_of_stopped {g : Grid2State} (h : g.stopped = true) :
    ∀ n, grid2StopN n g = g
  | 0 => rfl
  | n + 1 => by
    rw [grid2StopN, grid2Stop_of_stopped h]
    exact grid2StopN_of_stopped h n

/-- C7: `Stop` is idempotent — after any call to `Stop`, the grid is in
the stopped state, a further `Stop` performs no `Shutdown` action and
leaves the state unchanged, and calling `Stop` `n + 1` times in a row is
the same as calling it once. -/
theorem grid2Stop_idempotent (g : Grid2State) :
    (grid2Stop g).1.stopped = true
    ∧ grid2Stop (grid2Stop g).1 = ((grid2Stop g).1, false)
    ∧ ∀ n, grid2StopN (n + 1) g = (grid2Stop g).1 := by
  refine ⟨grid2Stop_stopped g, grid2Stop_of_stopped (grid2Stop_stopped g), ?_⟩
  intro n
  rw [grid2StopN]
  exact grid2StopN_of_stopped (grid2Stop_stopped g) n

/-- C10: every `grid2` value returned by `New` has `stopped == true`,
no exported operation nor `fork` ever resets it, so in every reachable
state the `metaconsumer.Shutdown()` branch of `Stop` is unreachable and
`Stop` leaves the state unchanged. -/
theorem grid2_stopped_invariant :
    grid2New.stopped = true
    ∧ ∀ g : Grid2State, Grid2Reachable g →
        g.stopped = true ∧ grid2Stop g = (g, false) := by
  refine ⟨rfl, ?_⟩
  intro g h
  have hstop : g.stopped = true := by
    induction h with
    | new => rfl
    | start _ ih =>
      rw [grid2Start]
      by_cases hs : (‹Grid2State›).started <;> simp_all [grid2Start]
    | stop _ ih =>
      exact grid2Stop_stopped _
    | startActor _ ih => exact ih
    | fork _ ih => exact ih
  exact ⟨hstop, grid2Stop_of_stopped hstop⟩

/-- Witness for C10 at the state returned by `New`. -/
theorem grid2_stopped_invariant_witness :
    grid2New.stopped = true ∧ grid2Stop grid2New = (grid2New, false) := by
  have h := grid2_stopped_invariant
  exact ⟨h.1, (h.2 grid2New Grid2Reachable.new).2⟩

/-! ### Registry lemmas -/

theorem register_live_error {r : Registry} {k : Kind} {n : String}
    (h : live r k n = true) (p : String) :
    Register r k n p = .error .alreadyRegistered := by
  rw [Register, if_pos h]

theorem register_ok_inv {r r' : Registry} {k : Kind} {n p : String}
    (h : Register r k n p = .ok r') :
    live r k n = false ∧ r' = { r with regs := ⟨k, n, p⟩ :: r.regs } := by
  rw [Register] at h
  split at h
  next hl => exact absurd h (by simp)
  next hl =>
    split at h
    next hm =>
      injection h with h2
      exact ⟨Bool.eq_false_iff.mpr hl, h2.symm⟩
    next hm => exact absurd h (by simp)

theorem live_head {r : Registry} {k : Kind} {n p : String} :
    live { r with regs := ⟨k, n, p⟩ :: r.regs } k n = true := by
  simp [live]

theorem runRace_of_live {k : Kind} {n : String} :
    ∀ (r : Registry) (ps : List String), live r k n = true →
      runRace k n r ps = (r, 0)
  | _, [], _ => rfl
  | r, p :: ps, h => by
    rw [runRace, register_live_error h p]
    exact runRace_of_live r ps h

theorem runRace_le_one {k : Kind} {n : String} :
    ∀ (r : Registry) (ps : List String), (runRace k n r ps).2 ≤ 1
  | _, [] => Nat.zero_le 1
  | r, p :: ps => by
    rw [runRace]
    cases hR : Register r k n p with
    | ok r' =>
      have hlive : live r' k n = true := by
        rcases register_ok_inv hR with ⟨_, h2⟩
        rw [h2]
        exact live_head
      show ((runRace k n r' ps).1, (runRace k n r' ps).2 + 1).2 ≤ 1
      rw [runRace_of_live r' ps hlive]
    | error e =>
      exact runRace_le_one r ps

/-- C1: while a live registration with a given `(kind, name)` exists,
every `Register` of that `(kind, name)` fails with `already-registered`
— in particular opening a second `Mailbox` with the name of a live one
fails that way — and among any list of racing `Register` calls,
serialised by the coordinator's CAS, at most one returns success. -/
theorem register_name_uniqueness (r : Registry) (k : Kind) (n : String) :
    (live r k n = true → ∀ p, Register r k n p = .error .alreadyRegistered)
    ∧ (∀ ps : List String, (runRace k n r ps).2 ≤ 1)
    ∧ (∀ (owner : String) (cap : Nat) (r' : Registry) (mbox : Mailbox),
        NewMailbox r owner n cap = .ok (r', mbox) →
        ∀ (owner2 : String) (cap2 : Nat),
          NewMailbox r' owner2 n cap2 = .error .alreadyRegistered) := by
  refine ⟨fun h p => register_live_error h p, fun ps => runRace_le_one r ps, ?_⟩
  intro owner cap r' mbox h owner2 cap2
  rw [NewMailbox] at h ⊢
  cases hR : Register r .mailbox n owner with
  | ok r2 =>
    rw [hR] at h
    injection h with h2
    rw [Prod.mk.injEq] at h2
    have hlive : live r' .mailbox n = true := by
      rcases register_ok_inv hR with ⟨_, h3⟩
      rw [← h2.1, h3]
      exact live_head
    rw [register_live_error hlive owner2]
  | error e =>
    rw [hR] at h
    exact absurd h (by simp)

/-- Witness for C1: a second registration of a live mailbox name fails,
and a three-way race from a fresh registry has at most one winner. -/
theorem register_name_uniqueness_witness :
    Register { leases := ["p1", "p2"], regs := [⟨Kind.mailbox, "w", "p1"⟩] }
        Kind.mailbox "w" "p2" = .error .alreadyRegistered
    ∧ (runRace Kind.mailbox "w" { leases := ["p1", "p2"], regs := [] }
        ["p1", "p2", "p3"]).2 ≤ 1 := by
  have h1 := register_name_uniqueness
    { leases := ["p1", "p2"], regs := [⟨Kind.mailbox, "w", "p1"⟩] } Kind.mailbox "w"
  have h2 := register_name_uniqueness
    { leases := ["p1", "p2"], regs := [] } Kind.mailbox "w"
  exact ⟨h1.1 (by decide) "p2", h2.2.1 ["p1", "p2", "p3"]⟩

theorem wf_filter {r : Registry} (h : RegistryWF r) (L : List String)
    (pred : Reg → Bool) :
    RegistryWF { leases := L, regs := r.regs.filter pred } := by
  unfold RegistryWF at h ⊢
  exact List.Nodup.sublist ((List.filter_sublist r.regs).map regKey) h

theorem wf_of_reachable {r : Registry} (h : RegReachable r) : RegistryWF r := by
  induction h with
  | empty => simp [RegistryWF, emptyRegistry]
  | grant p _ ih => exact ih
  | expire p _ ih => exact wf_filter ih _ _
  | @register r₀ r₀' k₀ n₀ p₀ _ hok ih =>
    rcases register_ok_inv hok with ⟨hl, h2⟩
    rw [h2]
    unfold RegistryWF
    rw [List.map_cons]
    refine List.nodup_cons.mpr ⟨?_, ih⟩
    intro hc
    rcases List.mem_map.mp hc with ⟨e, he, hkey⟩
    simp only [regKey, Prod.mk.injEq] at hkey
    have hlv : live r₀ k₀ n₀ = true := by
      rw [live, List.any_eq_true]
      exact ⟨e, he, by simp [hkey.1, hkey.2]⟩
    rw [hlv] at hl
    exact absurd hl (by simp)
  | deregister k n _ ih => exact wf_filter ih _ _

theorem filter_key_length_le_one (k₀ : Kind) (n₀ : String) (pred : Reg → Bool) :
    ∀ l : List Reg, (∀ e ∈ l, pred e = true → regKey e = (k₀, n₀)) →
      (l.map regKey).Nodup → (l.filter pred).length ≤ 1
  | [], _, _ => by simp
  | e :: l, hpred, hnd => by
    rw [List.map_cons, List.nodup_cons] at hnd
    rw [List.filter_cons]
    by_cases hp : pred e = true
    · rw [if_pos hp]
      have hnil : l.filter pred = [] := by
        rw [List.filter_eq_nil_iff]
        intro x hx hpx
        have hx1 := hpred x (List.mem_cons_of_mem _ hx) hpx
        have he1 := hpred e (List.mem_cons_self _ _) hp
        exact hnd.1 (List.mem_map.mpr ⟨x, hx, hx1.trans he1.symm⟩)
      rw [hnil]
      simp
    · rw [if_neg hp]
      exact filter_key_length_le_one k₀ n₀ pred l
        (fun x hx => hpred x (List.mem_cons_of_mem _ hx)) hnd.2

/-- C2: in every reachable registry state, `FindAll(actor)` holds at
most one entry named `"leader"`, and a single Server running `Serve`
then `Stop` starts the reserved leader actor exactly once and ends it
exactly once. -/
theorem leader_singleton (r : Registry) (h : RegReachable r) :
    ((FindAll r .actor).filter (fun e => decide (e.name = "leader"))).length ≤ 1
    ∧ ∀ p : String, serveThenStop p
        = { leadersStarted := 1, leadersEnded := 1 } := by
  constructor
  · refine filter_key_length_le_one Kind.actor "leader" _ (FindAll r .actor)
      ?_ ?_
    · intro e he hpe
      have h1 : e.kind = Kind.actor := by
        have := List.of_mem_filter he
        simpa using this
      have h2 : e.name = "leader" := by simpa using hpe
      simp [regKey, h1, h2]
    · have hsub : List.Sublist (FindAll r Kind.actor) r.regs :=
        List.filter_sublist r.regs
      exact List.Nodup.sublist (hsub.map regKey) (wf_of_reachable h)
  · intro p
    have e1 : Register (grantLease emptyRegistry p) Kind.peer p p
        = .ok { leases := [p], regs := [⟨Kind.peer, p, p⟩] } := by
      simp [Register, live, grantLease, emptyRegistry]
    have e2 : Register { leases := [p], regs := [⟨Kind.peer, p, p⟩] }
          Kind.actor "leader" p
        = .ok { leases := [p],
                regs := [⟨Kind.actor, "leader", p⟩, ⟨Kind.peer, p, p⟩] } := by
      simp [Register, live]
    simp [serveThenStop, e1, e2]

/-- Witness for C2 at the empty registry and a concrete host. -/
theorem leader_singleton_witness :
    ((FindAll emptyRegistry .actor).filter
        (fun e => decide (e.name = "leader"))).length ≤ 1
    ∧ serveThenStop "host1" = { leadersStarted := 1, leadersEnded := 1 } := by
  have h := leader_singleton emptyRegistry RegReachable.empty
  exact ⟨h.1, h.2 "host1"⟩

/-! ### Mailbox backpressure -/

/-- Delivering a batch into a mailbox with room bounded by capacity:
the first `capacity - queue.length` envelopes are appended, the rest
are dropped with `mailbox-full`. -/
theorem deliverAll_spec : ∀ (msgs : List Envelope) (m : Mailbox),
    m.queue.length ≤ m.capacity →
    deliverAll m msgs
      = ({ capacity := m.capacity,
           queue := m.queue ++ msgs.take (m.capacity - m.queue.length) },
         min (m.capacity - m.queue.length) msgs.length,
         msgs.length - (m.capacity - m.queue.length))
  | [], m, _ => by
    simp [deliverAll]
  | e :: es, m, h => by
    rw [deliverAll, deliver]
    by_cases hlt : m.queue.length < m.capacity
    · rw [if_pos hlt]
      have ih := deliverAll_spec es { capacity := m.capacity, queue := m.queue ++ [e] }
        (by simp; omega)
      show ((deliverAll { capacity := m.capacity, queue := m.queue ++ [e] } es).1,
            (deliverAll { capacity := m.capacity, queue := m.queue ++ [e] } es).2.1 + 1,
            (deliverAll { capacity := m.capacity, queue := m.queue ++ [e] } es).2.2) = _
      rw [ih]
      have hroom : m.capacity - m.queue.length
          = (m.capacity - (m.queue.length + 1)) + 1 := by omega
      rw [Prod.mk.injEq, Prod.mk.injEq]
      refine ⟨?_, ?_, ?_⟩
      · rw [Mailbox.mk.injEq]
        refine ⟨rfl, ?_⟩
        simp only [List.length_append, List.length_cons, List.length_nil]
        rw [hroom, List.take_succ_cons, List.append_assoc]
        rfl
      · simp only [List.length_append, List.length_cons, List.length_nil,
          Nat.zero_add]
        omega
      · simp only [List.length_append, List.length_cons, List.length_nil,
          Nat.zero_add]
        omega
    · rw [if_neg hlt]
      have hroom0 : m.capacity - m.queue.length = 0 := by omega
      have ih := deliverAll_spec es m h
      show ((deliverAll m es).1, (deliverAll m es).2.1,
            (deliverAll m es).2.2 + 1) = _
      rw [ih, hroom0]
      simp

/-- C3: a fresh mailbox of capacity `c` receiving `c + k` envelopes
without draining holds exactly the first `c` of them, with exactly `c`
deliveries and exactly `k` calls dropped with `mailbox-full`; and
`mailbox-full` is not among the errors the Client retries. -/
theorem mailbox_backpressure (c k : Nat) (msgs : List Envelope)
    (h : msgs.length = c + k) :
    (deliverAll { capacity := c, queue := [] } msgs).1.queue = msgs.take c
    ∧ (deliverAll { capacity := c, queue := [] } msgs).2.1 = c
    ∧ (deliverAll { capacity := c, queue := [] } msgs).2.2 = k
    ∧ retryable .mailboxFull = false := by
  have hd := deliverAll_spec msgs { capacity := c, queue := [] } (by simp)
  rw [hd]
  refine ⟨by simp, by simp [h], by simp [h], rfl⟩

/-- Witness for C3: capacity 2, three envelopes. -/
theorem mailbox_backpressure_witness :
    (deliverAll { capacity := 2, queue := [] }
        [⟨"a"⟩, ⟨"b"⟩, ⟨"c"⟩]).1.queue = [⟨"a"⟩, ⟨"b"⟩]
    ∧ (deliverAll { capacity := 2, queue := [] }
        [⟨"a"⟩, ⟨"b"⟩, ⟨"c"⟩]).2.1 = 2
    ∧ (deliverAll { capacity := 2, queue := [] }
        [⟨"a"⟩, ⟨"b"⟩, ⟨"c"⟩]).2.2 = 1 := by
  have h := mailbox_backpressure 2 1 [⟨"a"⟩, ⟨"b"⟩, ⟨"c"⟩] (by decide)
  exact ⟨h.1.trans (by decide), h.2.1, h.2.2.1⟩

/-! ### Client retry policy -/

/-- C4: a `Client.Request` makes at most two transport calls; when the
first call fails with a retryable error (`not-found` or `unavailable`),
the Client retries exactly once against the address of a fresh Registry
lookup, re-caches it after invalidating the stale entry, and returns the
second outcome — failure included — to the caller; a non-retryable first
failure is returned directly after a single call. -/
theorem client_retry_policy (cache reg : List (String × String)) (name : String)
    (transport : Nat → String → CallOutcome) :
    (clientRequest cache reg name transport).2.1 ≤ 2
    ∧ (∀ addr c1, resolve cache reg name = some (addr, c1) →
        ∀ e, transport 0 addr = .err e → retryable e = true →
          ∀ addr2, lookupKey name reg = some addr2 →
            (clientRequest cache reg name transport).1 = transport 1 addr2
            ∧ (clientRequest cache reg name transport).2.1 = 2
            ∧ (clientRequest cache reg name transport).2.2
                = (name, addr2) :: removeKey name c1)
    ∧ (∀ addr c1, resolve cache reg name = some (addr, c1) →
        ∀ e, transport 0 addr = .err e → retryable e = false →
          (clientRequest cache reg name transport).1 = .err e
          ∧ (clientRequest cache reg name transport).2.1 = 1) := by
  refine ⟨?_, ?_, ?_⟩
  · rw [clientRequest]
    cases hres : resolve cache reg name with
    | none => simp
    | some pr =>
      obtain ⟨addr, c1⟩ := pr
      cases ht : transport 0 addr with
      | ok resp => simp [ht]
      | err e =>
        cases hrr : retryable e
        · simp [ht, hrr]
        · cases hlk : lookupKey name reg <;> simp [ht, hrr, hlk]
  · intro addr c1 hres e ht hrr addr2 hlk
    simp [clientRequest, hres, ht, hrr, hlk]
  · intro addr c1 hres e ht hrr
    simp [clientRequest, hres, ht, hrr]

/-- Witness for C4: a stale cache entry, first call `unavailable`, the
retry against the fresh address fails with `deadline-exceeded`, which is
returned after exactly two calls. -/
theorem client_retry_policy_witness :
    (clientRequest [("m", "a1")] [("m", "a2")] "m"
        (fun att _ => if att = 0 then .err .unavailable
          else .err .deadlineExceeded)).1 = .err .deadlineExceeded
    ∧ (clientRequest [("m", "a1")] [("m", "a2")] "m"
        (fun att _ => if att = 0 then .err .unavailable
          else .err .deadlineExceeded)).2.1 = 2 := by
  have h := (client_retry_policy [("m", "a1")] [("m", "a2")] "m"
      (fun att _ => if att = 0 then .err .unavailable
        else .err .deadlineExceeded)).2.1
    "a1" [("m", "a1")] rfl .unavailable rfl rfl "a2" rfl
  exact ⟨h.1.trans rfl, h.2.1⟩

/-! ### One-shot reply sink -/

/-- C5: for every envelope's reply sink, `Respond` succeeds while the
RPC is live and no response was written; any `Respond` after a
successful one, and any `Respond` after the RPC completes, fails with
`already-responded`. -/
theorem respond_one_shot :
    (∀ s : ReplySink, s.rpcLive = true → s.responded = false →
        respond s = .ok { s with responded := true })
    ∧ (∀ s s' : ReplySink, respond s = .ok s' →
        respond s' = .error .alreadyResponded)
    ∧ (∀ s : ReplySink, respond (completeRPC s) = .error .alreadyResponded) := by
  refine ⟨?_, ?_, ?_⟩
  · intro s h1 h2
    simp [respond, h1, h2]
  · intro s s' h
    rw [respond] at h
    split at h
    next hc =>
      injection h with h2
      rw [← h2]
      simp [respond]
    next hc => exact absurd h (by simp)
  · intro s
    simp [respond, completeRPC]

/-- Witness for C5: a fresh live sink responds once, then fails. -/
theorem respond_one_shot_witness :
    respond freshSink = .ok { rpcLive := true, responded := true }
    ∧ respond { rpcLive := true, responded := true }
        = .error .alreadyResponded := by
  have h := respond_one_shot
  have h1 := h.1 freshSink rfl rfl
  exact ⟨h1, h.2.1 freshSink _ h1⟩

/-! ### Codec registry totality -/

/-- C6: receiving a payload whose type tag was never recorded in the
codec registry fails with `unknown-type`, and that error — not being
retryable — is returned to the requesting Client after a single call;
for a registered tag, receiving constructs the registered zero value and
decodes the body into it. -/
theorem codec_totality (reg : List (String × CodecVal)) (tag : String)
    (body : List Nat) :
    (lookupKey tag reg = none → recvDecode reg tag body = .error .unknownType)
    ∧ (∀ z, lookupKey tag reg = some z →
        recvDecode reg tag body = .ok { z with body := body })
    ∧ recvDecode (codecRegister reg tag) tag body
        = .ok { typeTag := tag, body := body }
    ∧ (∀ (cache regd : List (String × String)) (name addr : String)
        (c1 : List (String × String)),
        resolve cache regd name = some (addr, c1) →
        (clientRequest cache regd name (fun _ _ => .err .unknownType)).1
            = .err .unknownType
        ∧ (clientRequest cache regd name
            (fun _ _ => .err .unknownType)).2.1 = 1) := by
  refine ⟨?_, ?_, ?_, ?_⟩
  · intro h
    simp [recvDecode, h]
  · intro z h
    simp [recvDecode, h]
  · simp [recvDecode, codecRegister, lookupKey]
  · intro cache regd name addr c1 hres
    simp [clientRequest, hres, retryable]

/-- Witness for C6: an empty registry rejects tag `"Event"`, and the
Client surfaces the receiver's `unknown-type` without retry. -/
theorem codec_totality_witness :
    recvDecode [] "Event" [7] = .error .unknownType
    ∧ (clientRequest [("m", "a")] [] "m"
        (fun _ _ => .err .unknownType)).1 = .err .unknownType := by
  have h := codec_totality [] "Event" [7]
  exact ⟨h.1 rfl, (h.2.2.2 [("m", "a")] [] "m" "a" [("m", "a")] rfl).1⟩

end GridProof
